import Mathlib

/-!
Verification development for the jtcmake staleness / memoization core.

The definitions below are a shallow embedding of the code in
`src/jtcmake/rule/rule.py` (the `Rule` class with `should_update`,
`postprocess`, `update_memo`, and the module-level helpers `load_memo`,
`save_memo`, `create_vfile_hashes`) and of the memo-factory argument
parsing in `src/jtcmake/frontend/group_base.py`
(`_staticgroup__init__args_memo_factory`).

Modelling conventions:
  * Paths are lists of components; `PurePath.parent` is `List.dropLast`
    and `PurePath.name` is the last component.
  * File mtimes are rationals (Python uses floats; only ordering,
    equality and comparison with 0 matter to the embedded code).
  * File contents are modelled at the granularity the code
    distinguishes: arbitrary bytes (which `json.load` rejects), a JSON
    document that lacks the `vfiles`/`args` fields (field access
    raises), or a well-formed metadata record.
  * Every filesystem primitive the code calls also emits an `FSOp`
    trace entry, so that read-only behaviour and the presence/absence
    of write and rename operations are provable facts.
  * Python exceptions are `Except PyErr`; a bare `try ... except: pass`
    becomes a total recovery combinator.
  * `os.path.getmtime` raises on a missing path in Python; the embedded
    `FS.mtime` totalises it with a default of 0.  Every call site in the
    embedded code is guarded by an existence check, mirroring the
    source, so the default is never observable in the verified paths.
-/

namespace Jtcmake

/-- Filesystem path, as a list of components. -/
abbrev Path := List String

/-- Scalar component of a nest key.  `sobj` stands for a Python object
that the canonical JSON serialization rejects (`json.dumps` raises
`TypeError` on it); `sstr`/`sint` are the JSON-serializable scalars. -/
inductive Scalar where
  | sstr (s : String)
  | sint (n : Int)
  | sobj (id : Nat)
  deriving DecidableEq, Repr

/-- Nest key: a tuple of scalar components naming an input slot. -/
abbrev NestKey := List Scalar

/-- Whether a scalar survives the canonical JSON round trip. -/
def Scalar.jsonable : Scalar → Bool
  | .sstr _ => true
  | .sint _ => true
  | .sobj _ => false

/-- Whether a whole nest key is JSON-serializable. -/
def jsonableKey (k : NestKey) : Bool := k.all Scalar.jsonable

/-- File kind: plain file (`IFile`) or value file (`IVFile`). -/
inductive FKind where
  | plain
  | vfile
  deriving DecidableEq, Repr

/-- File handle: a path plus the plain/value tag. -/
structure File where
  path : Path
  kind : FKind
  deriving DecidableEq, Repr

/-- Entry of the stored `vfiles` table: nest key, hash string, mtime. -/
abbrev VEntry := NestKey × String × ℚ

/-- File contents, at the granularity the metadata reader
distinguishes: `bytes` is data that `json.load` rejects (ordinary
file bytes), `jsonNoField` is a JSON document lacking the `vfiles` or
`args` field (so that field access raises), and `record` is a
well-formed metadata record. -/
inductive FContent where
  | bytes (s : String)
  | jsonNoField
  | record (vfiles : List VEntry) (args : String)
  deriving DecidableEq, Repr

/-- Per-file state: mtime and contents. -/
structure FileData where
  mtime : ℚ
  content : FContent
  deriving DecidableEq, Repr

/-- Filesystem state: an association list from paths to file data. -/
structure FS where
  files : List (Path × FileData)
  deriving DecidableEq, Repr

/-- First entry for a path in an association list. -/
def lookupL (l : List (Path × FileData)) (p : Path) : Option FileData :=
  (l.find? (fun e => decide (e.1 = p))).map (·.2)

namespace FS

/-- Look up the data stored at a path. -/
def lookup (fs : FS) (p : Path) : Option FileData :=
  lookupL fs.files p

/-- Embeds `os.path.exists`. -/
def exists_ (fs : FS) (p : Path) : Bool := (fs.lookup p).isSome

/-- Embeds `os.path.getmtime`, totalised with default 0 (Python raises
on a missing path; all embedded call sites are guarded by an existence
check). -/
def mtime (fs : FS) (p : Path) : ℚ := ((fs.lookup p).map (·.mtime)).getD 0

/-- Contents at a path, totalised with empty bytes as default. -/
def contentD (fs : FS) (p : Path) : FContent :=
  ((fs.lookup p).map (·.content)).getD (.bytes "")

/-- Deterministic content digest standing in for SHA-256; embeds
`IVFile.get_hash`. -/
def hashOfContent : FContent → String
  | .bytes s => "sha256:" ++ s
  | .jsonNoField => "sha256:json-no-field"
  | .record _ _ => "sha256:record"

/-- Embeds `f.get_hash()`: digest of the file bytes. -/
def hash (fs : FS) (p : Path) : String := hashOfContent (fs.contentD p)

/-- Create or truncate-and-write the file at `p`. -/
def write (fs : FS) (p : Path) (d : FileData) : FS :=
  ⟨(p, d) :: fs.files.filter (fun e => !decide (e.1 = p))⟩

/-- Set the mtime of an existing file (embeds a successful `os.utime`). -/
def setMtime (fs : FS) (p : Path) (t : ℚ) : FS :=
  ⟨fs.files.map (fun e => if e.1 = p then (e.1, ⟨t, e.2.content⟩) else e)⟩

/-- Delete the file at `p` (embeds a successful `os.remove`). -/
def remove (fs : FS) (p : Path) : FS :=
  ⟨fs.files.filter (fun e => !decide (e.1 = p))⟩

end FS

/-- Trace entry: one filesystem primitive invoked by the code. -/
inductive FSOp where
  | statExists (p : Path)
  | statMtime (p : Path)
  | readFile (p : Path)
  | hashFile (p : Path)
  | makedirs (p : Path)
  | writeFile (p : Path)
  | removeFile (p : Path)
  | utimeFile (p : Path) (t : ℚ)
  | renameFile (src dst : Path)
  deriving DecidableEq, Repr

/-- Read-only filesystem primitives. -/
def FSOp.isRead : FSOp → Bool
  | .statExists _ => true
  | .statMtime _ => true
  | .readFile _ => true
  | .hashFile _ => true
  | _ => false

/-- Rename primitives. -/
def FSOp.isRename : FSOp → Bool
  | .renameFile _ _ => true
  | _ => false

/-- Python exceptions raised by the embedded code, by site. -/
inductive PyErr where
  /-- `Exception(f'Input file ... is missing')` in `should_update`. -/
  | missingInput (p : Path)
  /-- `Exception(f'Input file ... has mtime of 0 ...')` in `should_update`. -/
  | invalidInputMtime (p : Path)
  /-- `json.JSONDecodeError` escaping `json.load` in `load_memo`. -/
  | jsonDecodeError
  /-- `KeyError`/`TypeError` from `data['vfiles']` / `data['args']` in `load_memo`. -/
  | keyError
  /-- `Exception('Failed to check memoized arguments ...')` in `should_update`. -/
  | memoCompareFailed
  /-- `TypeError` from `json.dumps` on a non-serializable nest key in `create_vfile_hashes`. -/
  | notJsonSerializable
  deriving DecidableEq, Repr

/-- Argument memo object: the payload written to the metadata record
(`self.memo.memo`) and the fallible comparison against a stored
payload (`self.memo.compare`). -/
structure Memo where
  memo : String
  compare : String → Except Unit Bool

/-- Embeds the `Rule` class state used by the staleness subsystem.
The `method`, `args`, `kwargs` and `deplist` attributes of the Python
class are opaque to every operation embedded here and are omitted. -/
structure Rule where
  yfiles : List File
  xfiles : List (NestKey × File)
  memo : Memo

/-- Embeds the `Rule.metadata_fname` property:
`p.parent / '.jtcmake' / p.name` for `p` the first output path.  Rules
have at least one output; the `[]` fallback models the out-of-contract
case (Python would raise `IndexError`). -/
def Rule.metadata_fname (r : Rule) : Path :=
  match r.yfiles with
  | [] => [".jtcmake"]
  | f :: _ => f.path.dropLast ++ [".jtcmake", (f.path.getLast?).getD ""]

/-- Early-return flow of a loop inside `should_update`. -/
inductive Flow where
  | ret (b : Bool)
  | err (e : PyErr)
  | cont
  deriving Repr

/-- Embeds the first loop of `should_update` (rule.py lines 35-50):
for each input, check existence, then check mtime == 0; in dry mode a
bad input returns True, otherwise an exception is raised.  Returns the
control-flow outcome together with the trace of primitives invoked. -/
def checkInputsLoop (fs : FS) (dryRun : Bool) :
    List (NestKey × File) → Flow × List FSOp
  | [] => (.cont, [])
  | (_, f) :: rest =>
    if fs.exists_ f.path then
      if fs.mtime f.path = 0 then
        (if dryRun then (.ret true, [.statExists f.path, .statMtime f.path])
         else (.err (.invalidInputMtime f.path),
               [.statExists f.path, .statMtime f.path]))
      else
        let s := checkInputsLoop fs dryRun rest
        (s.1, [FSOp.statExists f.path, FSOp.statMtime f.path] ++ s.2)
    else
      (if dryRun then (.ret true, [.statExists f.path])
       else (.err (.missingInput f.path), [.statExists f.path]))

/-- Embeds `any(not os.path.exists(f.path) for f in self.yfiles)`
(rule.py line 55), including the short-circuit of `any`. -/
def anyMissingLoop (fs : FS) : List File → Bool × List FSOp
  | [] => (false, [])
  | f :: rest =>
    if fs.exists_ f.path then
      let s := anyMissingLoop fs rest
      (s.1, FSOp.statExists f.path :: s.2)
    else (true, [FSOp.statExists f.path])

/-- `min` of a list of mtimes; Python's `min` over a non-empty
generator (rule.py line 58).  The `[]` case is out of contract
(Python's `min` raises on an empty sequence). -/
def listMin : List ℚ → ℚ
  | [] => 0
  | m :: rest => rest.foldl min m

/-- Embeds the collection loop of `should_update` (rule.py lines
63-70): inputs strictly newer than the oldest output either trigger an
immediate update (plain files, result `none`) or are collected as
candidates (value files, result `some cands`). -/
def collectLoop (fs : FS) (oldest : ℚ) :
    List (NestKey × File) → Option (List (NestKey × File)) × List FSOp
  | [] => (some [], [])
  | (k, f) :: rest =>
    if oldest < fs.mtime f.path then
      if f.kind = FKind.vfile then
        let s := collectLoop fs oldest rest
        (s.1.map (fun c => (k, f) :: c), FSOp.statMtime f.path :: s.2)
      else (none, [FSOp.statMtime f.path])
    else
      let s := collectLoop fs oldest rest
      (s.1, FSOp.statMtime f.path :: s.2)

/-- Embeds `load_memo` (rule.py lines 194-204): `None` when the
metadata file is absent; otherwise `json.load` the contents (raising
on malformed JSON) and extract the `vfiles` and `args` fields (raising
when a field is missing). -/
def load_memo (fs : FS) (p : Path) :
    Except PyErr (Option (List VEntry × String)) × List FSOp :=
  if fs.exists_ p then
    match fs.contentD p with
    | .record v a => (.ok (some (v, a)), [.statExists p, .readFile p])
    | .jsonNoField => (.error .keyError, [.statExists p, .readFile p])
    | .bytes _ => (.error .jsonDecodeError, [.statExists p, .readFile p])
  else (.ok none, [.statExists p])

/-- Embeds `hash_dic[k]` lookup where
`hash_dic = {tuple(k): (h,t) for k,h,t in vfile_hashes}` (rule.py
line 79): a Python dict comprehension keeps the last entry for a
duplicated key. -/
def dicFind (tbl : List VEntry) (k : NestKey) : Option (String × ℚ) :=
  (tbl.reverse.find? (fun e => decide (e.1 = k))).map (·.2)

/-- Embeds the value-file content check loop of `should_update`
(rule.py lines 81-91): a candidate with no stored entry triggers an
update; a candidate whose current mtime equals the stored one is
skipped without hashing; otherwise the hash is computed and compared. -/
def vfilesLoop (fs : FS) (tbl : List VEntry) :
    List (NestKey × File) → Bool × List FSOp
  | [] => (false, [])
  | (k, f) :: rest =>
    match dicFind tbl k with
    | none => (true, [])
    | some (h, t) =>
      if fs.mtime f.path = t then
        let s := vfilesLoop fs tbl rest
        (s.1, FSOp.statMtime f.path :: s.2)
      else if fs.hash f.path = h then
        let s := vfilesLoop fs tbl rest
        (s.1, [FSOp.statMtime f.path, FSOp.hashFile f.path] ++ s.2)
      else (true, [FSOp.statMtime f.path, FSOp.hashFile f.path])

/-- Embeds the memo comparison step of `should_update` (rule.py lines
93-102): an exception from `self.memo.compare` becomes the
memo-compare failure; `False` means the rule is stale; `True` falls
through to the final `return False`. -/
def memoStep (m : Memo) (args : String) : Except PyErr Bool :=
  match m.compare args with
  | .error _ => .error .memoCompareFailed
  | .ok b => .ok (!b)

/-- Embeds `Rule.should_update` (rule.py lines 30-102).  Returns the
Python result (`True` = stale, `False` = up to date, or a raised
exception) together with the trace of filesystem primitives invoked. -/
def Rule.should_update (r : Rule) (fs : FS) (parUpdated dryRun : Bool) :
    Except PyErr Bool × List FSOp :=
  let s1 := checkInputsLoop fs dryRun r.xfiles
  match s1.1 with
  | .ret b => (.ok b, s1.2)
  | .err e => (.error e, s1.2)
  | .cont =>
    if dryRun && parUpdated then (.ok true, s1.2)
    else
      let s2 := anyMissingLoop fs r.yfiles
      if s2.1 then (.ok true, s1.2 ++ s2.2)
      else
        let oldest := listMin (r.yfiles.map (fun f => fs.mtime f.path))
        let ops3 := r.yfiles.map (fun f => FSOp.statMtime f.path)
        if oldest ≤ 0 then (.ok true, s1.2 ++ s2.2 ++ ops3)
        else
          let s4 := collectLoop fs oldest r.xfiles
          match s4.1 with
          | none => (.ok true, s1.2 ++ s2.2 ++ ops3 ++ s4.2)
          | some cands =>
            let s5 := load_memo fs r.metadata_fname
            match s5.1 with
            | .error e => (.error e, s1.2 ++ s2.2 ++ ops3 ++ s4.2 ++ s5.2)
            | .ok none => (.ok true, s1.2 ++ s2.2 ++ ops3 ++ s4.2 ++ s5.2)
            | .ok (some (tbl, args)) =>
              let s6 := vfilesLoop fs tbl cands
              if s6.1 then
                (.ok true, s1.2 ++ s2.2 ++ ops3 ++ s4.2 ++ s5.2 ++ s6.2)
              else
                (memoStep r.memo args,
                 s1.2 ++ s2.2 ++ ops3 ++ s4.2 ++ s5.2 ++ s6.2)

/-- Embeds `create_vfile_hashes` (rule.py lines 155-161): compute
`(k, f.get_hash(), os.path.getmtime(f.path))` for every value file,
then round-trip the list through JSON; the round trip raises
`TypeError` when some nest key is not JSON-serializable (hash strings
and mtime numbers always are). -/
def create_vfile_hashes (fs : FS) (vfiles : List (NestKey × File)) :
    Except PyErr (List VEntry) × List FSOp :=
  let res : List VEntry :=
    vfiles.map (fun e => (e.1, fs.hash e.2.path, fs.mtime e.2.path))
  let ops : List FSOp :=
    vfiles.foldr
      (fun e acc => FSOp.hashFile e.2.path :: FSOp.statMtime e.2.path :: acc)
      []
  if res.all (fun e => jsonableKey e.1) then (.ok res, ops)
  else (.error .notJsonSerializable, ops)

/-- Embeds `save_memo` (rule.py lines 186-191): compute the vfile
hashes (which may raise), `os.makedirs` the metadata directory, then
open the metadata path for writing and `json.dump` the record into it
directly.  `now` is the wall-clock mtime the written file receives. -/
def save_memo (fs : FS) (now : ℚ) (mpath : Path)
    (vfiles : List (NestKey × File)) (args_memo : String) :
    Except PyErr FS × List FSOp :=
  match create_vfile_hashes fs vfiles with
  | (.error e, ops) => (.error e, ops)
  | (.ok entries, ops) =>
    (.ok (fs.write mpath ⟨now, .record entries args_memo⟩),
     ops ++ [FSOp.makedirs mpath.dropLast, FSOp.writeFile mpath])

/-- Embeds `Rule.update_memo` (rule.py lines 137-139): select the
value-file inputs and save the memo record. -/
def Rule.update_memo (r : Rule) (fs : FS) (now : ℚ) :
    Except PyErr FS × List FSOp :=
  save_memo fs now r.metadata_fname
    (r.xfiles.filter (fun e => decide (e.2.kind = FKind.vfile))) r.memo.memo

/-- Embeds `os.utime(p, (0, 0))`: fails when the path does not exist. -/
def os_utime0 (fs : FS) (p : Path) : Except Unit FS :=
  if fs.exists_ p then .ok (fs.setMtime p 0) else .error ()

/-- Embeds `os.remove(p)`: fails when the path does not exist. -/
def os_remove (fs : FS) (p : Path) : Except Unit FS :=
  if fs.exists_ p then .ok (fs.remove p) else .error ()

/-- Embeds the failure branch's first loop in `Rule.postprocess`
(rule.py lines 117-122): `os.utime(f.path, (0, 0))` for every output,
each wrapped in `try ... except: pass`.  The trace records the calls
that succeeded. -/
def failUtimeLoop (fs : FS) : List File → FS × List FSOp
  | [] => (fs, [])
  | f :: rest =>
    match os_utime0 fs f.path with
    | .ok fs1 =>
      let s := failUtimeLoop fs1 rest
      (s.1, FSOp.utimeFile f.path 0 :: s.2)
    | .error _ => failUtimeLoop fs rest

/-- Embeds `Rule.postprocess` (rule.py lines 113-128).  On success it
runs `update_memo` (whose exceptions propagate).  On failure it sets
every existing output's mtime to `(0, 0)` and removes the metadata
file, swallowing every error, so the failure branch always returns
`Except.ok`. -/
def Rule.postprocess (r : Rule) (fs : FS) (now : ℚ) (succ : Bool) :
    Except PyErr FS × List FSOp :=
  if succ then r.update_memo fs now
  else
    let s := failUtimeLoop fs r.yfiles
    match os_remove s.1 r.metadata_fname with
    | .ok fs2 => (.ok fs2, s.2 ++ [FSOp.removeFile r.metadata_fname])
    | .error _ => (.ok s.1, s.2)

/-- Embeds `Rule.__init__` (rule.py lines 9-27): the constructor only
assigns the attributes and performs no validation, so it always
succeeds. -/
def rule_init (yfiles : List File) (xfiles : List (NestKey × File))
    (memo : Memo) : Except PyErr Rule :=
  .ok { yfiles := yfiles, xfiles := xfiles, memo := memo }

/-- Whether an `Except` value is a success; embeds "the Python call
returned without raising". -/
def isOkE {ε α : Type} : Except ε α → Bool
  | .ok _ => true
  | .error _ => false

/-! Memo-factory argument parsing from
`src/jtcmake/frontend/group_base.py`. -/

/-- Possible values of the `pickle_key` argument: `none` is Python's
`None`, `str`/`bytes` the two accepted types, `other` any object of
another type. -/
inductive KeyArg where
  | none
  | str (s : String)
  | bytes (b : List Nat)
  | other
  deriving DecidableEq, Repr

/-- Memo factory selected by `_staticgroup__init__args_memo_factory`:
either the `StrHashMemo` class or a closure building `PickleMemo` with
the decoded key. -/
inductive MemoFactory where
  | strHash
  | pickleMemo (key : List Nat)
  deriving DecidableEq, Repr

/-- Construction-time errors of the memo factory, by raise site. -/
inductive FactoryErr where
  /-- `TypeError('pickle_key must not be specified for str_hash memoization')`. -/
  | keyForbidden
  /-- `TypeError('pickle_key must be specified')`. -/
  | keyRequired
  /-- `ValueError('If given as str, pickle_key must be a hexadecimal string')`. -/
  | invalidKeyHex
  /-- `TypeError('pickle_key must be bytes or hexadecimal str')`. -/
  | keyWrongType
  /-- `TypeError('memo kind must be "str_hash" or "pickle"')`. -/
  | badKind
  deriving DecidableEq, Repr

/-- ASCII whitespace in the sense of CPython's `Py_ISSPACE`. -/
def pyIsSpace (c : Char) : Bool :=
  c = ' ' || c = '\t' || c = '\n' || c = '\x0d' || c = '\x0b' || c = '\x0c'

/-- Value of a hexadecimal digit. -/
def hexVal (c : Char) : Option Nat :=
  if '0' ≤ c ∧ c ≤ '9' then some (c.toNat - '0'.toNat)
  else if 'a' ≤ c ∧ c ≤ 'f' then some (c.toNat - 'a'.toNat + 10)
  else if 'A' ≤ c ∧ c ≤ 'F' then some (c.toNat - 'A'.toNat + 10)
  else none

/-- Core of `bytes.fromhex`: skip ASCII whitespace before each byte,
then require two adjacent hex digits per byte (CPython rejects
whitespace between the two digits of a byte). -/
def fromHexAux : List Char → Option (List Nat)
  | [] => some []
  | c :: rest =>
    if pyIsSpace c then fromHexAux rest
    else
      match hexVal c, rest with
      | some hi, c2 :: rest2 =>
        match hexVal c2 with
        | some lo => (fromHexAux rest2).map (fun bs => (16 * hi + lo) :: bs)
        | none => none
      | _, _ => none

/-- Embeds Python's `bytes.fromhex`. -/
def bytes_fromhex (s : String) : Option (List Nat) := fromHexAux s.toList

/-- Embeds `_staticgroup__init__args_memo_factory` (group_base.py
lines 161-192): `"str_hash"` requires the key to be absent;
`"pickle"` requires a key, given as bytes or a hex string; any other
kind string is rejected. -/
def memo_factory_args (kind : String) (pickle_key : KeyArg) :
    Except FactoryErr MemoFactory :=
  if kind = "str_hash" then
    match pickle_key with
    | .none => .ok .strHash
    | _ => .error .keyForbidden
  else if kind = "pickle" then
    match pickle_key with
    | .none => .error .keyRequired
    | .str s =>
      match bytes_fromhex s with
      | some b => .ok (.pickleMemo b)
      | none => .error .invalidKeyHex
    | .bytes b => .ok (.pickleMemo b)
    | .other => .error .keyWrongType
  else .error .badKind

/-- Default of the `memo_kind` parameter of `GroupBase.__init__`
(group_base.py line 48). -/
def default_memo_kind : String := "str_hash"

/-- Default of the `pickle_key` parameter of `GroupBase.__init__`
(group_base.py line 49). -/
def default_pickle_key : KeyArg := .none

/-- Project the success state out of a postprocess result, with a
default for the (never-taken) error case. -/
def okStateD (x : Except PyErr FS) (d : FS) : FS :=
  match x with
  | .ok fs => fs
  | .error _ => d

/-! Concrete rules and filesystem states used to evaluate the
embedded code on explicit inputs. -/

/-- Memo whose comparison succeeds and checks payload equality. -/
def memoEq (p : String) : Memo := ⟨p, fun s => .ok (decide (s = p))⟩

/-- Memo whose comparison raises. -/
def memoRaise (p : String) : Memo := ⟨p, fun _ => .error ()⟩

/-- Sample nest keys. -/
def kA : NestKey := [Scalar.sstr "a"]

/-- Second sample nest key. -/
def kB : NestKey := [Scalar.sstr "b"]

/-- Nest key containing a component the canonical JSON serialization
rejects. -/
def kBad : NestKey := [Scalar.sobj 0]

/-- Sample output file. -/
def fileOut : File := ⟨["out"], FKind.plain⟩

/-- Sample plain input file at path `a`. -/
def fileInA : File := ⟨["a"], FKind.plain⟩

/-- Sample plain input file at path `b`. -/
def fileInB : File := ⟨["b"], FKind.plain⟩

/-- Sample value-file input. -/
def fileVin : File := ⟨["vin"], FKind.vfile⟩

/-- Metadata path of a rule whose first output is `out`. -/
def metaOut : Path := [".jtcmake", "out"]

/-- Rule with one plain output and one plain input. -/
def rPlain : Rule := ⟨[fileOut], [(kA, fileInA)], memoEq "m"⟩

/-- State where the metadata file exists but holds malformed JSON:
output `out` (mtime 3), input `a` (mtime 1), metadata bytes. -/
def fsBadMeta : FS :=
  ⟨[(["out"], ⟨3, .bytes "o"⟩), (["a"], ⟨1, .bytes "x"⟩),
    (metaOut, ⟨2, .bytes "garbage"⟩)]⟩

/-- State with no metadata file: output `out` (mtime 3), input `a`
(mtime 1). -/
def fsNoMeta : FS :=
  ⟨[(["out"], ⟨3, .bytes "o"⟩), (["a"], ⟨1, .bytes "x"⟩)]⟩

/-- Rule whose memo comparison raises. -/
def rRaise : Rule := ⟨[fileOut], [(kA, fileInA)], memoRaise "m"⟩

/-- State with a well-formed empty metadata record. -/
def fsGoodMeta : FS :=
  ⟨[(["out"], ⟨3, .bytes "o"⟩), (["a"], ⟨1, .bytes "x"⟩),
    (metaOut, ⟨2, .record [] "w"⟩)]⟩

/-- Rule with two plain inputs `a` and `b`. -/
def rTwoIn : Rule := ⟨[fileOut], [(kA, fileInA), (kB, fileInB)], memoEq "m"⟩

/-- State where input `a` exists with mtime 0 and input `b` is
missing. -/
def fsZeroAndMissing : FS :=
  ⟨[(["out"], ⟨3, .bytes "o"⟩), (["a"], ⟨0, .bytes "x"⟩)]⟩

/-- State where the plain input `a` (mtime 5) is newer than the
output `out` (mtime 3). -/
def fsNewerIn : FS :=
  ⟨[(["out"], ⟨3, .bytes "o"⟩), (["a"], ⟨5, .bytes "x"⟩)]⟩

/-- Rule with one output `o5` and no inputs. -/
def rNoIn : Rule := ⟨[⟨["o5"], FKind.plain⟩], [], memoEq "m"⟩

/-- State for `rNoIn`: output `o5` exists (mtime 5) and its metadata
record exists. -/
def fsO5 : FS :=
  ⟨[(["o5"], ⟨5, .bytes "z"⟩), ([".jtcmake", "o5"], ⟨5, .record [] "m"⟩)]⟩

/-- Rule with a value-file input keyed by a non-serializable nest
key. -/
def rBadKey : Rule := ⟨[fileOut], [(kBad, fileVin)], memoEq "m"⟩

/-- State for `rBadKey`: output and value input exist. -/
def fsBadKey : FS :=
  ⟨[(["out"], ⟨3, .bytes "o"⟩), (["vin"], ⟨1, .bytes "v"⟩)]⟩

/-! Characterization lemmas for the loops of `should_update`. -/

/-- When every input exists with nonzero mtime, the first loop falls
through. -/
theorem checkInputsLoop_cont (fs : FS) (dry : Bool) :
    ∀ xs : List (NestKey × File),
      (∀ e ∈ xs, fs.exists_ e.2.path = true ∧ ¬ fs.mtime e.2.path = 0) →
      (checkInputsLoop fs dry xs).1 = Flow.cont
  | [], _ => rfl
  | (k, f) :: rest, h => by
    obtain ⟨h1, h2⟩ := h (k, f) (List.mem_cons_self _ _)
    simp only [checkInputsLoop, h1, h2, if_true, if_false, ite_true, ite_false]
    exact checkInputsLoop_cont fs dry rest
      (fun e he => h e (List.mem_cons_of_mem _ he))

/-- When every output exists, the output-existence loop reports no
missing output. -/
theorem anyMissingLoop_false (fs : FS) :
    ∀ ys : List File, (∀ y ∈ ys, fs.exists_ y.path = true) →
      (anyMissingLoop fs ys).1 = false
  | [], _ => rfl
  | f :: rest, h => by
    have h1 := h f (List.mem_cons_self _ _)
    simp only [anyMissingLoop, h1, if_true, ite_true]
    exact anyMissingLoop_false fs rest
      (fun y hy => h y (List.mem_cons_of_mem _ hy))

/-- A plain-file input strictly newer than the oldest output makes the
collection loop return the immediate-update result. -/
theorem collectLoop_none (fs : FS) (oldest : ℚ) :
    ∀ xs : List (NestKey × File),
      (∃ e ∈ xs, e.2.kind = FKind.plain ∧ oldest < fs.mtime e.2.path) →
      (collectLoop fs oldest xs).1 = none
  | [], h => absurd h (by simp)
  | (k, f) :: rest, h => by
    by_cases hm : oldest < fs.mtime f.path
    · by_cases hk : f.kind = FKind.vfile
      · have hrest : ∃ e ∈ rest, e.2.kind = FKind.plain ∧
            oldest < fs.mtime e.2.path := by
          rcases h with ⟨e, he, hp, hn⟩
          rcases List.mem_cons.mp he with he' | hin
          · subst he'; rw [hk] at hp; simp at hp
          · exact ⟨e, hin, hp, hn⟩
        simp only [collectLoop, hm, hk, ite_true, if_true]
        simp [collectLoop_none fs oldest rest hrest]
      · simp [collectLoop, hm, hk]
    · have hrest : ∃ e ∈ rest, e.2.kind = FKind.plain ∧
          oldest < fs.mtime e.2.path := by
        rcases h with ⟨e, he, hp, hn⟩
        rcases List.mem_cons.mp he with he' | hin
        · subst he'; exact absurd hn hm
        · exact ⟨e, hin, hp, hn⟩
      simp [collectLoop, hm, collectLoop_none fs oldest rest hrest]

/-- An input not strictly newer than the oldest output is skipped by
the collection loop: it is neither collected nor triggers an update. -/
theorem collectLoop_skip (fs : FS) (oldest : ℚ) (k : NestKey) (f : File)
    (l : List (NestKey × File)) (hm : ¬ oldest < fs.mtime f.path) :
    collectLoop fs oldest ((k, f) :: l) =
      ((collectLoop fs oldest l).1,
       FSOp.statMtime f.path :: (collectLoop fs oldest l).2) := by
  simp [collectLoop, hm]

/-- A value-file input strictly newer than the oldest output is
collected as a candidate instead of triggering an update. -/
theorem collectLoop_vfile (fs : FS) (oldest : ℚ) (k : NestKey) (f : File)
    (l : List (NestKey × File)) (hk : f.kind = FKind.vfile)
    (hm : oldest < fs.mtime f.path) :
    collectLoop fs oldest ((k, f) :: l) =
      ((collectLoop fs oldest l).1.map (fun c => (k, f) :: c),
       FSOp.statMtime f.path :: (collectLoop fs oldest l).2) := by
  simp [collectLoop, hm, hk]

/-! Unfolding lemmas for `should_update`. -/

/-- An exception in the input loop propagates out of `should_update`. -/
theorem should_update_input_err (r : Rule) (fs : FS) (par dry : Bool)
    (e : PyErr) (h1 : (checkInputsLoop fs dry r.xfiles).1 = Flow.err e) :
    (r.should_update fs par dry).1 = .error e := by
  simp only [Rule.should_update]
  rw [h1]

/-- An early return in the input loop is the result of
`should_update`. -/
theorem should_update_input_ret (r : Rule) (fs : FS) (par dry : Bool)
    (b : Bool) (h1 : (checkInputsLoop fs dry r.xfiles).1 = Flow.ret b) :
    (r.should_update fs par dry).1 = .ok b := by
  simp only [Rule.should_update]
  rw [h1]

/-- When the pre-checks pass and a plain input is newer than the
oldest output, `should_update` reports stale. -/
theorem should_update_collect_none (r : Rule) (fs : FS) (par : Bool)
    (h1 : (checkInputsLoop fs false r.xfiles).1 = Flow.cont)
    (h2 : (anyMissingLoop fs r.yfiles).1 = false)
    (h3 : ¬ listMin (r.yfiles.map fun f => fs.mtime f.path) ≤ 0)
    (h4 : (collectLoop fs (listMin (r.yfiles.map fun f => fs.mtime f.path))
             r.xfiles).1 = none) :
    (r.should_update fs par false).1 = .ok true := by
  simp only [Rule.should_update]
  rw [h1]
  simp only [Bool.false_and, Bool.false_eq_true, if_false, ite_false, h2, h3,
    h4, ite_true, if_true]

/-- When the pre-checks pass and the candidates are collected,
`should_update` is decided by the metadata record, the value-file
check and the memo comparison. -/
theorem should_update_reach (r : Rule) (fs : FS) (par : Bool)
    (cands : List (NestKey × File))
    (h1 : (checkInputsLoop fs false r.xfiles).1 = Flow.cont)
    (h2 : (anyMissingLoop fs r.yfiles).1 = false)
    (h3 : ¬ listMin (r.yfiles.map fun f => fs.mtime f.path) ≤ 0)
    (h4 : (collectLoop fs (listMin (r.yfiles.map fun f => fs.mtime f.path))
             r.xfiles).1 = some cands) :
    (r.should_update fs par false).1 =
      (match (load_memo fs r.metadata_fname).1 with
       | .error e => .error e
       | .ok none => .ok true
       | .ok (some (tbl, args)) =>
         if (vfilesLoop fs tbl cands).1 = true then .ok true
         else memoStep r.memo args) := by
  simp only [Rule.should_update]
  rw [h1]
  simp only [Bool.false_and, Bool.false_eq_true, if_false, ite_false, h2, h3,
    h4, ite_true, if_true]
  rcases hL : (load_memo fs r.metadata_fname).1 with e | mo
  · rfl
  · rcases mo with _ | ⟨tbl, args⟩
    · rfl
    · by_cases h6 : (vfilesLoop fs tbl cands).1 = true <;> simp [h6]

/-! Lemmas about the filesystem state updates used by `postprocess`. -/

/-- Unfolding of `lookupL` on a cons cell. -/
theorem lookupL_cons (x : Path × FileData) (l : List (Path × FileData))
    (q : Path) :
    lookupL (x :: l) q = if x.1 = q then some x.2 else lookupL l q := by
  by_cases h : x.1 = q <;> simp [lookupL, List.find?_cons, h]

/-- Setting a file's mtime rewrites only that entry's mtime. -/
theorem lookupL_setMtime (p : Path) (t : ℚ) (q : Path) :
    ∀ l : List (Path × FileData),
      lookupL (l.map (fun e => if e.1 = p then (e.1, ⟨t, e.2.content⟩) else e)) q =
        if q = p then (lookupL l q).map (fun d => ⟨t, d.content⟩)
        else lookupL l q
  | [] => by by_cases hqp : q = p <;> simp [lookupL, hqp]
  | e :: rest => by
    have ih := lookupL_setMtime p t q rest
    rw [List.map_cons]
    by_cases hep : e.1 = p
    · rw [if_pos hep, lookupL_cons, lookupL_cons]
      by_cases heq : e.1 = q
      · have hqp : q = p := heq ▸ hep
        simp [heq, hqp]
      · simp only [heq, ite_false, if_false]
        rw [ih]
    · rw [if_neg hep, lookupL_cons, lookupL_cons]
      by_cases heq : e.1 = q
      · have hqp : ¬ q = p := fun h => hep (heq.trans h)
        simp [heq, hqp]
      · simp only [heq, ite_false, if_false]
        rw [ih]

/-- Removing a path removes exactly that entry. -/
theorem lookupL_remove (p q : Path) :
    ∀ l : List (Path × FileData),
      lookupL (l.filter (fun e => !decide (e.1 = p))) q =
        if q = p then none else lookupL l q
  | [] => by by_cases hqp : q = p <;> simp [lookupL, hqp]
  | e :: rest => by
    have ih := lookupL_remove p q rest
    rw [List.filter_cons]
    by_cases hep : e.1 = p
    · rw [if_neg (by simp [hep])]
      rw [ih, lookupL_cons]
      by_cases heq : e.1 = q
      · have hqp : q = p := heq ▸ hep
        simp [heq, hqp]
      · simp [heq]
    · rw [if_pos (by simp [hep])]
      rw [lookupL_cons, lookupL_cons]
      by_cases heq : e.1 = q
      · have hqp : ¬ q = p := fun h => hep (heq.trans h)
        simp [heq, hqp]
      · simp only [heq, ite_false, if_false]
        rw [ih]

/-- `setMtime` preserves which paths exist. -/
theorem FS.exists_setMtime (fs : FS) (p : Path) (t : ℚ) (q : Path) :
    (fs.setMtime p t).exists_ q = fs.exists_ q := by
  have h := lookupL_setMtime p t q fs.files
  simp only [FS.exists_, FS.lookup, FS.setMtime, h]
  by_cases hqp : q = p <;> simp [hqp]

/-- `setMtime` sets the mtime of an existing target path. -/
theorem FS.mtime_setMtime_self (fs : FS) (p : Path) (t : ℚ)
    (h : fs.exists_ p = true) : (fs.setMtime p t).mtime p = t := by
  have hl := lookupL_setMtime p t p fs.files
  simp only [FS.mtime, FS.lookup, FS.setMtime, hl, if_pos rfl]
  rcases hp : lookupL fs.files p with _ | d
  · rw [FS.exists_, FS.lookup, hp] at h
    simp at h
  · simp

/-- `setMtime` leaves other paths' mtimes unchanged. -/
theorem FS.mtime_setMtime_ne (fs : FS) (p : Path) (t : ℚ) (q : Path)
    (h : ¬ q = p) : (fs.setMtime p t).mtime q = fs.mtime q := by
  have hl := lookupL_setMtime p t q fs.files
  simp only [FS.mtime, FS.lookup, FS.setMtime, hl, if_neg h]

/-- The removed path no longer exists after `remove`. -/
theorem FS.exists_remove_self (fs : FS) (p : Path) :
    (fs.remove p).exists_ p = false := by
  have hl := lookupL_remove p p fs.files
  simp [FS.exists_, FS.lookup, FS.remove, hl]

/-- `remove` leaves other paths' existence unchanged. -/
theorem FS.exists_remove_ne (fs : FS) (p q : Path) (h : ¬ q = p) :
    (fs.remove p).exists_ q = fs.exists_ q := by
  have hl := lookupL_remove p q fs.files
  simp [FS.exists_, FS.lookup, FS.remove, hl, h]

/-- `remove` leaves other paths' mtimes unchanged. -/
theorem FS.mtime_remove_ne (fs : FS) (p q : Path) (h : ¬ q = p) :
    (fs.remove p).mtime q = fs.mtime q := by
  have hl := lookupL_remove p q fs.files
  simp [FS.mtime, FS.lookup, FS.remove, hl, h]

/-- The failure-marking loop preserves which paths exist. -/
theorem failUtimeLoop_exists (q : Path) :
    ∀ (l : List File) (fs : FS),
      ((failUtimeLoop fs l).1).exists_ q = fs.exists_ q
  | [], fs => rfl
  | f :: rest, fs => by
    by_cases hex : fs.exists_ f.path = true
    · simp only [failUtimeLoop, os_utime0, hex, if_true, ite_true]
      rw [failUtimeLoop_exists q rest (fs.setMtime f.path 0)]
      exact fs.exists_setMtime f.path 0 q
    · simp only [failUtimeLoop, os_utime0, hex, if_false, ite_false]
      exact failUtimeLoop_exists q rest fs

/-- The failure-marking loop only ever writes mtime 0, so a zero
mtime is preserved. -/
theorem failUtimeLoop_zero (q : Path) :
    ∀ (l : List File) (fs : FS), fs.mtime q = 0 →
      ((failUtimeLoop fs l).1).mtime q = 0
  | [], _, h => h
  | f :: rest, fs, h => by
    by_cases hex : fs.exists_ f.path = true
    · simp only [failUtimeLoop, os_utime0, hex, if_true, ite_true]
      apply failUtimeLoop_zero q rest
      by_cases hq : q = f.path
      · subst hq
        exact fs.mtime_setMtime_self _ 0 hex
      · rw [fs.mtime_setMtime_ne f.path 0 q hq]
        exact h
    · simp only [failUtimeLoop, os_utime0, hex, if_false, ite_false]
      exact failUtimeLoop_zero q rest fs h

/-- Every output existing when the failure-marking loop starts has
mtime 0 afterwards. -/
theorem failUtimeLoop_mem (q : Path) :
    ∀ (l : List File) (fs : FS), q ∈ l.map (fun f => f.path) →
      fs.exists_ q = true → ((failUtimeLoop fs l).1).mtime q = 0
  | [], _, hmem, _ => absurd hmem (by simp)
  | f :: rest, fs, hmem, hex => by
    by_cases hq : q = f.path
    · subst hq
      have hexf : fs.exists_ f.path = true := hex
      simp only [failUtimeLoop, os_utime0, hexf, if_true, ite_true]
      apply failUtimeLoop_zero
      exact fs.mtime_setMtime_self f.path 0 hexf
    · have hmem' : q ∈ rest.map (fun f => f.path) := by
        rcases List.mem_map.mp hmem with ⟨g, hg, hgq⟩
        rcases List.mem_cons.mp hg with hg' | hg'
        · subst hg'; exact absurd hgq.symm hq
        · exact List.mem_map.mpr ⟨g, hg', hgq⟩
      by_cases hexf : fs.exists_ f.path = true
      · simp only [failUtimeLoop, os_utime0, hexf, if_true, ite_true]
        apply failUtimeLoop_mem q rest
        · exact hmem'
        · rw [fs.exists_setMtime f.path 0 q]
          exact hex
      · simp only [failUtimeLoop, os_utime0, hexf, if_false, ite_false]
        exact failUtimeLoop_mem q rest fs hmem' hex

/-! Read-only classification of the traces emitted by the loops of
`should_update`. -/

/-- The input-check loop only stats files. -/
theorem allRead_checkInputsLoop (fs : FS) (dry : Bool) :
    ∀ xs, ((checkInputsLoop fs dry xs).2).all FSOp.isRead = true
  | [] => rfl
  | (k, f) :: rest => by
    by_cases hex : fs.exists_ f.path = true
    · by_cases hmt : fs.mtime f.path = 0
      · cases dry <;> simp [checkInputsLoop, hex, hmt, FSOp.isRead]
      · simp [checkInputsLoop, hex, hmt, FSOp.isRead,
          allRead_checkInputsLoop fs dry rest]
    · cases dry <;> simp [checkInputsLoop, hex, FSOp.isRead]

/-- The output-existence loop only stats files. -/
theorem allRead_anyMissingLoop (fs : FS) :
    ∀ ys, ((anyMissingLoop fs ys).2).all FSOp.isRead = true
  | [] => rfl
  | f :: rest => by
    by_cases hex : fs.exists_ f.path = true <;>
      simp [anyMissingLoop, hex, FSOp.isRead, allRead_anyMissingLoop fs rest]

/-- The oldest-output mtime computation only stats files. -/
theorem allRead_statMtimes :
    ∀ ys : List File,
      ((ys.map (fun f => FSOp.statMtime f.path)).all FSOp.isRead) = true
  | [] => rfl
  | f :: rest => by simp [FSOp.isRead, allRead_statMtimes rest]

/-- The candidate-collection loop only stats files. -/
theorem allRead_collectLoop (fs : FS) (oldest : ℚ) :
    ∀ xs, ((collectLoop fs oldest xs).2).all FSOp.isRead = true
  | [] => rfl
  | (k, f) :: rest => by
    by_cases hm : oldest < fs.mtime f.path
    · by_cases hk : f.kind = FKind.vfile <;>
        simp [collectLoop, hm, hk, FSOp.isRead,
          allRead_collectLoop fs oldest rest]
    · simp [collectLoop, hm, FSOp.isRead, allRead_collectLoop fs oldest rest]

/-- Loading the metadata record only stats and reads. -/
theorem allRead_load_memo (fs : FS) (p : Path) :
    ((load_memo fs p).2).all FSOp.isRead = true := by
  by_cases hex : fs.exists_ p = true
  · rcases hc : fs.contentD p with s | _ | ⟨v, a⟩ <;>
      simp [load_memo, hex, hc, FSOp.isRead]
  · simp [load_memo, hex, FSOp.isRead]

/-- The value-file check loop only stats and hashes. -/
theorem allRead_vfilesLoop (fs : FS) (tbl : List VEntry) :
    ∀ cs, ((vfilesLoop fs tbl cs).2).all FSOp.isRead = true
  | [] => rfl
  | (k, f) :: rest => by
    rcases hd : dicFind tbl k with _ | ⟨h, t⟩
    · simp [vfilesLoop, hd]
    · by_cases hm : fs.mtime f.path = t
      · simp [vfilesLoop, hd, hm, FSOp.isRead, allRead_vfilesLoop fs tbl rest]
      · by_cases hh : fs.hash f.path = h <;>
          simp [vfilesLoop, hd, hm, hh, FSOp.isRead,
            allRead_vfilesLoop fs tbl rest]

/-- A read-only primitive is not a rename. -/
theorem isRename_false_of_isRead (op : FSOp) (h : op.isRead = true) :
    op.isRename = false := by
  cases op <;> simp_all [FSOp.isRead, FSOp.isRename]

/-- A write primitive never occurs in a read-only trace. -/
theorem not_mem_of_allRead (ops : List FSOp)
    (h : ops.all FSOp.isRead = true) (op : FSOp) (hop : op.isRead = false) :
    ¬ op ∈ ops := by
  intro hmem
  have := List.all_eq_true.mp h op hmem
  rw [hop] at this
  cases this

/-- A read-only trace contains no rename. -/
theorem all_not_isRename_of_allRead (ops : List FSOp)
    (h : ops.all FSOp.isRead = true) :
    ops.all (fun op => !op.isRename) = true := by
  apply List.all_eq_true.mpr
  intro op hmem
  rw [isRename_false_of_isRead op (List.all_eq_true.mp h op hmem)]
  rfl

/-! Lemmas about `create_vfile_hashes`. -/

/-- The trace of `create_vfile_hashes` is one hash plus one stat per
value file, whether or not the JSON round trip succeeds. -/
theorem create_vfile_hashes_snd (fs : FS) (v : List (NestKey × File)) :
    (create_vfile_hashes fs v).2 =
      v.foldr (fun e acc =>
        FSOp.hashFile e.2.path :: FSOp.statMtime e.2.path :: acc) [] := by
  by_cases h : ((v.map (fun e => (e.1, fs.hash e.2.path, fs.mtime e.2.path))).all
      (fun e => jsonableKey e.1)) = true <;>
    simp [create_vfile_hashes, h]

/-- The hashing trace is read-only. -/
theorem allRead_hashOps :
    ∀ v : List (NestKey × File),
      ((v.foldr (fun e acc =>
          FSOp.hashFile e.2.path :: FSOp.statMtime e.2.path :: acc) []).all
        FSOp.isRead) = true
  | [] => rfl
  | e :: rest => by simp [FSOp.isRead, allRead_hashOps rest]

/-- `create_vfile_hashes` raises when some nest key is not
JSON-serializable. -/
theorem create_vfile_hashes_fails (fs : FS) (v : List (NestKey × File))
    (e : NestKey × File) (he : e ∈ v) (hk : jsonableKey e.1 = false) :
    (create_vfile_hashes fs v).1 = .error .notJsonSerializable := by
  have hcond : ((v.map (fun e => (e.1, fs.hash e.2.path, fs.mtime e.2.path))).all
      (fun e => jsonableKey e.1)) = false := by
    rcases hall : ((v.map (fun e => (e.1, fs.hash e.2.path, fs.mtime e.2.path))).all
        (fun e => jsonableKey e.1)) with _ | _
    · exact hall
    · have hm : ((fun e => (e.1, fs.hash e.2.path, fs.mtime e.2.path)) e)
          ∈ v.map (fun e => (e.1, fs.hash e.2.path, fs.mtime e.2.path)) :=
        List.mem_map_of_mem _ he
      have := List.all_eq_true.mp hall _ hm
      simp only at this
      rw [hk] at this
      cases this
  simp [create_vfile_hashes, hcond]

/-- Prefix inputs that exist with nonzero mtime are passed over by the
input-check loop. -/
theorem checkInputsLoop_append (fs : FS) (dry : Bool) :
    ∀ (pre tail : List (NestKey × File)),
      (∀ e ∈ pre, fs.exists_ e.2.path = true ∧ ¬ fs.mtime e.2.path = 0) →
      (checkInputsLoop fs dry (pre ++ tail)).1 =
        (checkInputsLoop fs dry tail).1
  | [], _, _ => rfl
  | (k, f) :: pre, tail, h => by
    obtain ⟨h1, h2⟩ := h (k, f) (List.mem_cons_self _ _)
    simp only [List.cons_append, checkInputsLoop, h1, h2, if_true, if_false,
      ite_true, ite_false]
    exact checkInputsLoop_append fs dry pre tail
      (fun e he => h e (List.mem_cons_of_mem _ he))

/-! Claim theorems. -/

/-- C10: `should_update` is read-only with respect to the filesystem:
for every rule and every combination of `par_updated` and `dry_run`,
the stale-check's trace contains only read primitives (existence
stats, mtime stats, file reads, content hashing) — it never creates,
writes, truncates, renames or deletes a file or directory. -/
theorem claim_C10 (r : Rule) (fs : FS) (par dry : Bool) :
    ((r.should_update fs par dry).2).all FSOp.isRead = true := by
  simp only [Rule.should_update]
  split
  · exact allRead_checkInputsLoop fs dry r.xfiles
  · exact allRead_checkInputsLoop fs dry r.xfiles
  · split
    · exact allRead_checkInputsLoop fs dry r.xfiles
    · split
      · simp [List.all_append, allRead_checkInputsLoop, allRead_anyMissingLoop]
      · split
        · simp [List.all_append, allRead_checkInputsLoop,
            allRead_anyMissingLoop, allRead_statMtimes]
        · split
          · simp [List.all_append, allRead_checkInputsLoop,
              allRead_anyMissingLoop, allRead_statMtimes, allRead_collectLoop]
          · split
            · simp [List.all_append, allRead_checkInputsLoop,
                allRead_anyMissingLoop, allRead_statMtimes,
                allRead_collectLoop, allRead_load_memo]
            · simp [List.all_append, allRead_checkInputsLoop,
                allRead_anyMissingLoop, allRead_statMtimes,
                allRead_collectLoop, allRead_load_memo]
            · split
              · simp [List.all_append, allRead_checkInputsLoop,
                  allRead_anyMissingLoop, allRead_statMtimes,
                  allRead_collectLoop, allRead_load_memo, allRead_vfilesLoop]
              · simp [List.all_append, allRead_checkInputsLoop,
                  allRead_anyMissingLoop, allRead_statMtimes,
                  allRead_collectLoop, allRead_load_memo, allRead_vfilesLoop]

/-- C6 (amended): the stale-check iterates over the inputs once,
checking existence and then mtime 0 for each input in turn, so the
first offending input in list order determines the outcome: an input
that exists with mtime 0 raises the invalid-mtime error even when a
later input is missing, and a missing input raises the missing-input
error even when a later input has mtime 0. -/
theorem claim_C6 (r : Rule) (fs : FS) (par : Bool)
    (pre : List (NestKey × File)) (k : NestKey) (f : File)
    (rest : List (NestKey × File))
    (hx : r.xfiles = pre ++ (k, f) :: rest)
    (hpre : ∀ e ∈ pre, fs.exists_ e.2.path = true ∧ ¬ fs.mtime e.2.path = 0) :
    (fs.exists_ f.path = true → fs.mtime f.path = 0 →
       (r.should_update fs par false).1 = .error (.invalidInputMtime f.path)) ∧
    (fs.exists_ f.path = false →
       (r.should_update fs par false).1 = .error (.missingInput f.path)) := by
  constructor
  · intro hex hmt
    apply should_update_input_err
    rw [hx, checkInputsLoop_append fs false pre _ hpre]
    simp [checkInputsLoop, hex, hmt]
  · intro hex
    apply should_update_input_err
    rw [hx, checkInputsLoop_append fs false pre _ hpre]
    simp [checkInputsLoop, hex]

/-- C6 counterexample: with input `a` existing with mtime 0 listed
before the missing input `b`, a non-dry `should_update` raises the
invalid-mtime error for `a`, not the missing-input error for `b` that
the claim's phase ordering would require. -/
theorem claim_C6_counterexample :
    (rTwoIn.should_update fsZeroAndMissing false false).1
        = .error (.invalidInputMtime ["a"]) ∧
    ¬ (rTwoIn.should_update fsZeroAndMissing false false).1
        = .error (.missingInput ["b"]) := by
  constructor
  · rfl
  · intro h
    rw [show (rTwoIn.should_update fsZeroAndMissing false false).1
        = Except.error (PyErr.invalidInputMtime ["a"]) from rfl] at h
    simp at h

/-- C6 witness: the amended theorem applied to the two-input rule. -/
theorem claim_C6_witness :
    (rTwoIn.should_update fsZeroAndMissing true false).1
        = .error (.invalidInputMtime ["a"]) :=
  (claim_C6 rTwoIn fsZeroAndMissing true [] kA fileInA [(kB, fileInB)] rfl
      (by simp)).1 rfl rfl

/-- C1 (amended): when the stale-check reaches the metadata step, an
absent metadata record yields `SHOULD_UPDATE`; but a metadata file
that exists with malformed JSON raises the JSON decode error, and one
that lacks the `vfiles`/`args` fields raises the field-access error —
the load error propagates out of `should_update` instead of being
treated as an absent record. -/
theorem claim_C1 (r : Rule) (fs : FS) (par : Bool)
    (cands : List (NestKey × File))
    (h1 : (checkInputsLoop fs false r.xfiles).1 = Flow.cont)
    (h2 : (anyMissingLoop fs r.yfiles).1 = false)
    (h3 : ¬ listMin (r.yfiles.map fun f => fs.mtime f.path) ≤ 0)
    (h4 : (collectLoop fs (listMin (r.yfiles.map fun f => fs.mtime f.path))
             r.xfiles).1 = some cands) :
    (fs.exists_ r.metadata_fname = false →
       (r.should_update fs par false).1 = .ok true) ∧
    (∀ s, fs.exists_ r.metadata_fname = true →
       fs.contentD r.metadata_fname = .bytes s →
       (r.should_update fs par false).1 = .error .jsonDecodeError) ∧
    (fs.exists_ r.metadata_fname = true →
       fs.contentD r.metadata_fname = FContent.jsonNoField →
       (r.should_update fs par false).1 = .error .keyError) := by
  rw [should_update_reach r fs par cands h1 h2 h3 h4]
  refine ⟨fun hex => ?_, fun s hex hc => ?_, fun hex hc => ?_⟩
  · simp [load_memo, hex]
  · simp [load_memo, hex, hc]
  · simp [load_memo, hex, hc]

/-- C1 counterexample: with a metadata file present but holding bytes
that are not JSON, `should_update` raises the JSON decode error
instead of returning `SHOULD_UPDATE` as the claim states. -/
theorem claim_C1_counterexample :
    (rPlain.should_update fsBadMeta false false).1 = .error .jsonDecodeError ∧
    ¬ (rPlain.should_update fsBadMeta false false).1 = .ok true := by
  constructor
  · rfl
  · intro h
    rw [show (rPlain.should_update fsBadMeta false false).1
        = Except.error PyErr.jsonDecodeError from rfl] at h
    simp at h

/-- C1 witness: the amended theorem applied to a state with no
metadata record. -/
theorem claim_C1_witness :
    (rPlain.should_update fsNoMeta false false).1 = .ok true :=
  (claim_C1 rPlain fsNoMeta false [] rfl rfl (by decide) rfl).1 rfl

/-- C3: when the stale-check reaches the argument-memo step, an
exception from comparing the rule's memo with the stored payload
makes `should_update` fail with the memo-compare error, and a
comparison returning false makes `should_update` return
`SHOULD_UPDATE`. -/
theorem claim_C3 (r : Rule) (fs : FS) (par : Bool)
    (cands : List (NestKey × File))
    (h1 : (checkInputsLoop fs false r.xfiles).1 = Flow.cont)
    (h2 : (anyMissingLoop fs r.yfiles).1 = false)
    (h3 : ¬ listMin (r.yfiles.map fun f => fs.mtime f.path) ≤ 0)
    (h4 : (collectLoop fs (listMin (r.yfiles.map fun f => fs.mtime f.path))
             r.xfiles).1 = some cands)
    (tbl : List VEntry) (args : String)
    (hm : (load_memo fs r.metadata_fname).1 = .ok (some (tbl, args)))
    (hv : (vfilesLoop fs tbl cands).1 = false) :
    (r.memo.compare args = .error () →
       (r.should_update fs par false).1 = .error .memoCompareFailed) ∧
    (r.memo.compare args = .ok false →
       (r.should_update fs par false).1 = .ok true) := by
  rw [should_update_reach r fs par cands h1 h2 h3 h4, hm]
  constructor <;> intro hc <;> simp [hv, memoStep, hc]

/-- C3 witness: a rule whose memo comparison raises fails with the
memo-compare error. -/
theorem claim_C3_witness :
    (rRaise.should_update fsGoodMeta false false).1
        = .error .memoCompareFailed :=
  (claim_C3 rRaise fsGoodMeta false [] rfl rfl (by decide) rfl [] "w" rfl
      rfl).1 rfl

/-- C2: for a value-file candidate, the stale-check behaves as
follows.  If the nest key is absent from the stored `vfiles` table,
the check reports stale immediately.  If the current mtime equals the
stored mtime, the input contributes only an mtime stat to the trace —
the hash is never computed — and the verdict is that of the remaining
candidates, so the input triggers nothing.  Otherwise the hash is
computed, and the input triggers stale exactly when the computed hash
differs from the stored one.  The last two conjuncts lift the
absent-key and hash-differs cases to `should_update` returning
`SHOULD_UPDATE`. -/
theorem claim_C2 (fs : FS) (tbl : List VEntry) (k : NestKey) (f : File)
    (rest : List (NestKey × File)) :
    (dicFind tbl k = none → vfilesLoop fs tbl ((k, f) :: rest) = (true, [])) ∧
    (∀ (hs : String) (mt : ℚ), dicFind tbl k = some (hs, mt) →
      ((fs.mtime f.path = mt →
         vfilesLoop fs tbl ((k, f) :: rest) =
           ((vfilesLoop fs tbl rest).1,
            FSOp.statMtime f.path :: (vfilesLoop fs tbl rest).2)) ∧
       (¬ fs.mtime f.path = mt → ¬ fs.hash f.path = hs →
         vfilesLoop fs tbl ((k, f) :: rest) =
           (true, [FSOp.statMtime f.path, FSOp.hashFile f.path])) ∧
       (¬ fs.mtime f.path = mt → fs.hash f.path = hs →
         vfilesLoop fs tbl ((k, f) :: rest) =
           ((vfilesLoop fs tbl rest).1,
            FSOp.statMtime f.path :: FSOp.hashFile f.path ::
              (vfilesLoop fs tbl rest).2)))) ∧
    (∀ (r : Rule) (par : Bool) (args : String),
       (checkInputsLoop fs false r.xfiles).1 = Flow.cont →
       (anyMissingLoop fs r.yfiles).1 = false →
       ¬ listMin (r.yfiles.map fun g => fs.mtime g.path) ≤ 0 →
       (collectLoop fs (listMin (r.yfiles.map fun g => fs.mtime g.path))
          r.xfiles).1 = some ((k, f) :: rest) →
       (load_memo fs r.metadata_fname).1 = .ok (some (tbl, args)) →
       dicFind tbl k = none →
       (r.should_update fs par false).1 = .ok true) ∧
    (∀ (r : Rule) (par : Bool) (args : String) (hs : String) (mt : ℚ),
       (checkInputsLoop fs false r.xfiles).1 = Flow.cont →
       (anyMissingLoop fs r.yfiles).1 = false →
       ¬ listMin (r.yfiles.map fun g => fs.mtime g.path) ≤ 0 →
       (collectLoop fs (listMin (r.yfiles.map fun g => fs.mtime g.path))
          r.xfiles).1 = some ((k, f) :: rest) →
       (load_memo fs r.metadata_fname).1 = .ok (some (tbl, args)) →
       dicFind tbl k = some (hs, mt) →
       ¬ fs.mtime f.path = mt → ¬ fs.hash f.path = hs →
       (r.should_update fs par false).1 = .ok true) := by
  refine ⟨fun hd => by simp [vfilesLoop, hd],
    fun hs mt hd => ⟨fun hmt => by simp [vfilesLoop, hd, hmt],
      fun hmt hh => by simp [vfilesLoop, hd, hmt, hh],
      fun hmt hh => by simp [vfilesLoop, hd, hmt, hh]⟩,
    ?_, ?_⟩
  · intro r par args h1 h2 h3 h4 hm hd
    rw [should_update_reach r fs par ((k, f) :: rest) h1 h2 h3 h4, hm]
    simp [vfilesLoop, hd]
  · intro r par args hs mt h1 h2 h3 h4 hm hd hmt hh
    rw [should_update_reach r fs par ((k, f) :: rest) h1 h2 h3 h4, hm]
    simp [vfilesLoop, hd, hmt, hh]

/-- C2 witness: the absent-key case applied to a concrete candidate
with an empty stored table. -/
theorem claim_C2_witness :
    vfilesLoop fsNoMeta [] [(kA, fileVin)] = (true, []) :=
  (claim_C2 fsNoMeta [] kA fileVin []).1 rfl

/-- C7: for a rule whose inputs all exist with nonzero mtime and
whose outputs all exist with oldest output mtime strictly positive, a
plain-file input strictly newer than the oldest output makes
`should_update` return `SHOULD_UPDATE`; an input whose mtime equals
the oldest output mtime is considered not newer and is passed over by
the collection loop; and a value-file input newer than the oldest
output is collected as a candidate — deferred to the content check —
instead of triggering immediately. -/
theorem claim_C7 (fs : FS) (r : Rule) (par : Bool) (oldest : ℚ)
    (holdeq : oldest = listMin (r.yfiles.map fun f => fs.mtime f.path))
    (hx : ∀ e ∈ r.xfiles, fs.exists_ e.2.path = true ∧ ¬ fs.mtime e.2.path = 0)
    (hy : ∀ y ∈ r.yfiles, fs.exists_ y.path = true)
    (hpos : 0 < oldest) :
    ((∃ e ∈ r.xfiles, e.2.kind = FKind.plain ∧ oldest < fs.mtime e.2.path) →
       (r.should_update fs par false).1 = .ok true) ∧
    (∀ k f l, fs.mtime f.path = oldest →
       collectLoop fs oldest ((k, f) :: l) =
         ((collectLoop fs oldest l).1,
          FSOp.statMtime f.path :: (collectLoop fs oldest l).2)) ∧
    (∀ k f l, f.kind = FKind.vfile → oldest < fs.mtime f.path →
       collectLoop fs oldest ((k, f) :: l) =
         ((collectLoop fs oldest l).1.map (fun c => (k, f) :: c),
          FSOp.statMtime f.path :: (collectLoop fs oldest l).2)) := by
  subst holdeq
  refine ⟨fun hex => ?_,
    fun k f l hmeq => collectLoop_skip fs _ k f l (by rw [hmeq]; exact lt_irrefl _),
    fun k f l hk hm => collectLoop_vfile fs _ k f l hk hm⟩
  exact should_update_collect_none r fs par
    (checkInputsLoop_cont fs false r.xfiles hx)
    (anyMissingLoop_false fs r.yfiles hy)
    (not_le.mpr hpos)
    (collectLoop_none fs _ r.xfiles hex)

/-- C7 witness: a plain input with mtime 5 against a single output
with mtime 3 makes the rule stale. -/
theorem claim_C7_witness :
    (rPlain.should_update fsNewerIn false false).1 = .ok true :=
  (claim_C7 fsNewerIn rPlain false 3 rfl (by decide) (by decide)
      (by decide)).1 ⟨(kA, fileInA), by decide, rfl, by decide⟩

/-- C5: `postprocess` with success set to false never raises: it sets
the mtime of every output that currently exists to `(0, 0)`, deletes
the rule's metadata file when present, and swallows every error from
these operations.  The metadata path is assumed distinct from the
output paths, which holds for any output layout since the metadata
record lives in the `.jtcmake` subdirectory. -/
theorem claim_C5 (r : Rule) (fs : FS)
    (hmeta : ¬ r.metadata_fname ∈ r.yfiles.map (fun f => f.path)) :
    isOkE (r.postprocess fs 0 false).1 = true ∧
    (∀ f ∈ r.yfiles, fs.exists_ f.path = true →
       (okStateD (r.postprocess fs 0 false).1 fs).mtime f.path = 0) ∧
    (okStateD (r.postprocess fs 0 false).1 fs).exists_ r.metadata_fname
      = false := by
  simp only [Rule.postprocess, Bool.false_eq_true, if_false, ite_false]
  by_cases hrm :
      ((failUtimeLoop fs r.yfiles).1).exists_ r.metadata_fname = true
  · simp only [os_remove, hrm, if_true, ite_true]
    refine ⟨rfl, ?_, ?_⟩
    · intro f hf hex
      simp only [okStateD]
      have hne : ¬ f.path = r.metadata_fname := fun h =>
        hmeta (h ▸ List.mem_map_of_mem _ hf)
      rw [FS.mtime_remove_ne _ _ _ hne]
      exact failUtimeLoop_mem f.path r.yfiles fs
        (List.mem_map_of_mem _ hf) hex
    · simp only [okStateD]
      exact FS.exists_remove_self _ _
  · simp only [os_remove, hrm, if_false, ite_false]
    refine ⟨rfl, ?_, ?_⟩
    · intro f hf hex
      simp only [okStateD]
      exact failUtimeLoop_mem f.path r.yfiles fs
        (List.mem_map_of_mem _ hf) hex
    · simp only [okStateD]
      cases hh : ((failUtimeLoop fs r.yfiles).1).exists_ r.metadata_fname
      · exact hh
      · exact absurd hh hrm

/-- C5 witness: on a state where the output and metadata record both
exist, the failure branch zeroes the output's mtime, removes the
metadata file, and returns without raising. -/
theorem claim_C5_witness :
    isOkE (rNoIn.postprocess fsO5 0 false).1 = true ∧
    (okStateD (rNoIn.postprocess fsO5 0 false).1 fsO5).mtime ["o5"] = 0 ∧
    (okStateD (rNoIn.postprocess fsO5 0 false).1 fsO5).exists_
      [".jtcmake", "o5"] = false := by
  obtain ⟨a, b, c⟩ := claim_C5 rNoIn fsO5 (by decide)
  exact ⟨a, b ⟨["o5"], FKind.plain⟩ (by decide) rfl, c⟩

/-- C4 (amended): `postprocess` on success writes the metadata record
by creating the metadata directory and then writing the record
directly to the metadata path: the trace contains no rename, every
write in it targets the metadata path itself, and on success the
direct write to the metadata path is present — no temporary file and
rename-over are involved, so the write is not atomic. -/
theorem claim_C4 (r : Rule) (fs : FS) (now : ℚ) :
    ((r.postprocess fs now true).2).all (fun op => !op.isRename) = true ∧
    (∀ p, FSOp.writeFile p ∈ (r.postprocess fs now true).2 →
       p = r.metadata_fname) ∧
    (isOkE (r.postprocess fs now true).1 = true →
       FSOp.writeFile r.metadata_fname ∈ (r.postprocess fs now true).2) := by
  rcases hcv : create_vfile_hashes fs
      (r.xfiles.filter (fun e => decide (e.2.kind = FKind.vfile)))
    with ⟨res, ops⟩
  have hopsall : ops.all FSOp.isRead = true := by
    have hsnd := create_vfile_hashes_snd fs
      (r.xfiles.filter (fun e => decide (e.2.kind = FKind.vfile)))
    rw [hcv] at hsnd
    rw [show (res, ops).2 = ops from rfl] at hsnd
    rw [hsnd]
    exact allRead_hashOps _
  rcases res with e | entries
  · have hpp : r.postprocess fs now true = (.error e, ops) := by
      simp [Rule.postprocess, Rule.update_memo, save_memo, hcv]
    rw [hpp]
    refine ⟨all_not_isRename_of_allRead ops hopsall, ?_, ?_⟩
    · intro p hmem
      exact absurd hmem (not_mem_of_allRead ops hopsall _ rfl)
    · intro hok
      simp [isOkE] at hok
  · have hpp : r.postprocess fs now true =
        (.ok (fs.write r.metadata_fname ⟨now, .record entries r.memo.memo⟩),
         ops ++ [FSOp.makedirs r.metadata_fname.dropLast,
                 FSOp.writeFile r.metadata_fname]) := by
      simp [Rule.postprocess, Rule.update_memo, save_memo, hcv]
    rw [hpp]
    refine ⟨?_, ?_, ?_⟩
    · rw [List.all_append, all_not_isRename_of_allRead ops hopsall]
      rfl
    · intro p hmem
      rcases List.mem_append.mp hmem with hl | hr
      · exact absurd hl (not_mem_of_allRead ops hopsall _ rfl)
      · simp at hr
        exact hr
    · intro _
      exact List.mem_append.mpr (Or.inr (by simp))

/-- C4 counterexample: on a concrete rule the success trace contains
no rename at all, and the record write goes directly to the metadata
path — contradicting the claim that the record is first written to a
temporary file and then renamed over the metadata path. -/
theorem claim_C4_counterexample :
    ((rPlain.postprocess fsNoMeta 7 true).2).all (fun op => !op.isRename)
        = true ∧
    FSOp.writeFile metaOut ∈ (rPlain.postprocess fsNoMeta 7 true).2 := by
  exact ⟨rfl, by decide⟩

/-- C4 witness: the amended theorem applied to a concrete rule whose
success path writes the record. -/
theorem claim_C4_witness :
    ((rPlain.postprocess fsBadMeta 2 true).2).all (fun op => !op.isRename)
        = true ∧
    FSOp.writeFile rPlain.metadata_fname
      ∈ (rPlain.postprocess fsBadMeta 2 true).2 := by
  obtain ⟨a, b, c⟩ := claim_C4 rPlain fsBadMeta 2
  exact ⟨a, c rfl⟩

/-- C8 (amended): memo-factory construction succeeds exactly when the
options are consistent, with the caveat that the code's kind string
for the keyed variant is `"pickle"`, not `"keyed"`: under the default
kind `"str_hash"` the key must be absent (a present key is the
key-forbidden error); under `"pickle"` a key is required and must be
raw bytes or a hex string — a non-hex string fails with the
invalid-key error and any other type with the wrong-type error; and
every kind string outside `{"str_hash", "pickle"}` is rejected. -/
theorem claim_C8 :
    memo_factory_args default_memo_kind KeyArg.none = .ok .strHash ∧
    default_memo_kind = "str_hash" ∧
    (∀ key, ¬ key = KeyArg.none →
       memo_factory_args "str_hash" key = .error .keyForbidden) ∧
    memo_factory_args "pickle" KeyArg.none = .error .keyRequired ∧
    (∀ b, memo_factory_args "pickle" (KeyArg.bytes b) = .ok (.pickleMemo b)) ∧
    (∀ s b, bytes_fromhex s = some b →
       memo_factory_args "pickle" (KeyArg.str s) = .ok (.pickleMemo b)) ∧
    (∀ s, bytes_fromhex s = none →
       memo_factory_args "pickle" (KeyArg.str s) = .error .invalidKeyHex) ∧
    memo_factory_args "pickle" KeyArg.other = .error .keyWrongType ∧
    (∀ kind key, ¬ kind = "str_hash" → ¬ kind = "pickle" →
       memo_factory_args kind key = .error .badKind) := by
  refine ⟨rfl, rfl, ?_, rfl, fun b => rfl, ?_, ?_, rfl, ?_⟩
  · intro key hk
    cases key with
    | none => exact absurd rfl hk
    | str s => rfl
    | bytes b => rfl
    | other => rfl
  · intro s b h
    rw [show memo_factory_args "pickle" (KeyArg.str s)
        = (match bytes_fromhex s with
           | some b => Except.ok (MemoFactory.pickleMemo b)
           | none => Except.error FactoryErr.invalidKeyHex) from rfl, h]
  · intro s h
    rw [show memo_factory_args "pickle" (KeyArg.str s)
        = (match bytes_fromhex s with
           | some b => Except.ok (MemoFactory.pickleMemo b)
           | none => Except.error FactoryErr.invalidKeyHex) from rfl, h]
  · intro kind key h1 h2
    delta memo_factory_args
    rw [if_neg h1, if_neg h2]

/-- C8 counterexample: the kind string `"keyed"` is itself rejected by
the factory even when a valid raw-bytes key is supplied, contradicting
the claim that `memo_kind ∈ {"str_hash", "keyed"}` with `"keyed"`
accepting a key. -/
theorem claim_C8_counterexample :
    memo_factory_args "keyed" (KeyArg.bytes [0]) = .error .badKind ∧
    ¬ memo_factory_args "keyed" (KeyArg.bytes [0])
        = .ok (.pickleMemo [0]) := by
  constructor
  · rfl
  · intro h
    rw [show memo_factory_args "keyed" (KeyArg.bytes [0])
        = Except.error FactoryErr.badKind from rfl] at h
    simp at h

/-- C8 witness: the amended characterization applied to a present key
under `"str_hash"` and to an unknown kind string. -/
theorem claim_C8_witness :
    memo_factory_args "str_hash" KeyArg.other = .error .keyForbidden ∧
    memo_factory_args "mystery" KeyArg.none = .error .badKind := by
  obtain ⟨-, -, h3, -, -, -, -, -, h9⟩ := claim_C8
  exact ⟨h3 KeyArg.other (by decide),
    h9 "mystery" KeyArg.none (by decide) (by decide)⟩

/-- C9 (amended): nest keys are not validated when the rule is
constructed — `Rule.__init__` only assigns attributes and always
succeeds — and a value-file input whose nest key cannot be serialized
in the canonical JSON form instead causes an error later, when the
metadata record is written by `postprocess` on success. -/
theorem claim_C9 :
    (∀ (yfiles : List File) (xfiles : List (NestKey × File)) (memo : Memo),
       isOkE (rule_init yfiles xfiles memo) = true) ∧
    (∀ (fs : FS) (now : ℚ) (r : Rule),
       (∃ e ∈ r.xfiles, e.2.kind = FKind.vfile ∧ jsonableKey e.1 = false) →
       (r.postprocess fs now true).1 = .error .notJsonSerializable) := by
  refine ⟨fun _ _ _ => rfl, ?_⟩
  intro fs now r hex
  rcases hex with ⟨e, he, hk, hj⟩
  have hef : e ∈ r.xfiles.filter (fun e => decide (e.2.kind = FKind.vfile)) :=
    List.mem_filter.mpr ⟨he, by simp [hk]⟩
  have hfail := create_vfile_hashes_fails fs
    (r.xfiles.filter (fun e => decide (e.2.kind = FKind.vfile))) e hef hj
  rcases hcv : create_vfile_hashes fs
      (r.xfiles.filter (fun e => decide (e.2.kind = FKind.vfile)))
    with ⟨res, ops⟩
  rw [hcv] at hfail
  rw [show (res, ops).1 = res from rfl] at hfail
  subst hfail
  simp [Rule.postprocess, Rule.update_memo, save_memo, hcv]

/-- C9 counterexample: constructing a rule with a non-serializable
nest key succeeds without any error, and the rejection only happens
when the metadata record is written — contradicting the claim of a
construction-time error. -/
theorem claim_C9_counterexample :
    isOkE (rule_init [⟨["out2"], FKind.plain⟩] [(kBad, fileVin)]
        (memoRaise "p")) = true ∧
    (rBadKey.postprocess fsBadKey 1 true).1 = .error .notJsonSerializable :=
  ⟨rfl, rfl⟩

/-- C9 witness: the amended theorem applied to the concrete rule with
the bad key. -/
theorem claim_C9_witness :
    isOkE (rule_init [fileOut] [(kBad, fileVin)] (memoEq "m")) = true ∧
    (rBadKey.postprocess fsBadKey 0 true).1 = .error .notJsonSerializable := by
  obtain ⟨h1, h2⟩ := claim_C9
  exact ⟨h1 [fileOut] [(kBad, fileVin)] (memoEq "m"),
    h2 fsBadKey 0 rBadKey ⟨(kBad, fileVin), by decide, by decide, by decide⟩⟩

end Jtcmake
